import Mathlib

/-!
# Verification of the finwiz retry / tool / flow layer

A shallow embedding of the parts of the finwiz repository that its
specification makes claims about:

* `finwiz/tools/llm_retry.py` — the `RetryLLMWrapper` class: the blocking
  `_generate` (built on tenacity's `Retrying` with `stop_after_attempt` and
  `wait_exponential`) and the hand-rolled asynchronous `_agenerate` loop.
* `finwiz/tools/kraken_api_tool.py`, `finwiz/tools/yahoo_finance_tool.py`,
  `finwiz/tools/json_output_tool.py` — tool `_run` methods and the
  `_standardize_data` reshaping helper.
* `finwiz/main.py` — the per-stage cache-or-compute logic of `CryptoFlow`.
* `finwiz/tools/crewai_retry_patch.py` — the idempotent monkey patch.

Machine reals (`float` in the Python source) are modelled as `ℚ`; the
backoff arithmetic uses only `*`, `^`, `min` and `max`, which the rational
model reflects exactly.  External effects (the wrapped LLM, HTTP fetches,
the file system, crew execution) are modelled as explicit outcome values
passed to the embedded functions, and a raised exception is modelled as an
`Except`/sum constructor rather than control flow.
-/

/-! ## The LLM result data model (`langchain` `LLMResult`)

An `LLMResult` carries `generations : list[list[Generation]]`; the retry
wrapper only ever inspects the `text` of generations, so a generation is
modelled by its text.  The wrapped call may also return `None`, which the
source code guards against with `not result`, hence the `Option` below. -/

structure Generation where
  text : String
deriving DecidableEq, Repr

/-- `LLMResult.generations : list[list[Generation]]`. -/
abbrev LLMResult := List (List Generation)

/-- One invocation of the wrapped LLM either raises some exception `e : ε`
or returns a value (possibly `None`). -/
inductive CallOutcome (ε : Type) where
  | raises (e : ε)
  | returns (r : Option LLMResult)
deriving DecidableEq

/-- An exception observable from the retry wrapper: either the underlying
call's own exception, or a `ValueError` (with its message) raised by the
wrapper's empty-payload checks. -/
inductive LLMExc (ε : Type) where
  | underlying (e : ε)
  | valueError (msg : String)
deriving DecidableEq

/-- Python's `str.strip()` with no argument: drop leading and trailing
whitespace. -/
def pyStrip (s : String) : String :=
  ⟨((s.data.dropWhile Char.isWhitespace).reverse.dropWhile Char.isWhitespace).reverse⟩

namespace RetryLLMWrapper

/-- The per-`gen_list` emptiness test of the validation loop
(`llm_retry.py` lines 127-133 and 187-193):
`not gen_list or not gen_list[0].text or gen_list[0].text.strip() == ""`. -/
def badGenList : List Generation → Bool
  | [] => true
  | g :: _ => g.text = "" || pyStrip g.text = ""

/-- The body of one attempt, shared by `_generate` and `_agenerate` up to
the two `ValueError` message strings: call the wrapped LLM, then run the
empty-response check (`not result or not result.generations or not
result.generations[0]`) and the per-generation-list content check. -/
def checkBody (emptyRespMsg emptyContMsg : String) {ε : Type} :
    CallOutcome ε → Except (LLMExc ε) LLMResult
  | .raises e => .error (.underlying e)
  | .returns none => .error (.valueError emptyRespMsg)
  | .returns (some []) => .error (.valueError emptyRespMsg)
  | .returns (some (gl0 :: rest)) =>
    if gl0.isEmpty then .error (.valueError emptyRespMsg)
    else if (gl0 :: rest).any badGenList then .error (.valueError emptyContMsg)
    else .ok (gl0 :: rest)

/-- Attempt body of the blocking `_generate` (messages from lines 124/133). -/
def syncBody {ε : Type} : CallOutcome ε → Except (LLMExc ε) LLMResult :=
  checkBody "Empty response from LLM call" "Empty content in LLM response"

/-- Attempt body of `_agenerate` (messages from lines 184/193). -/
def asyncBody {ε : Type} : CallOutcome ε → Except (LLMExc ε) LLMResult :=
  checkBody "Empty response from async LLM call" "Empty content in async LLM response"

/-- Whether a call outcome fails the attempt body (independently of the
`ValueError` message strings, which never affect classification). -/
def failsCheck {ε : Type} : CallOutcome ε → Bool
  | .raises _ => true
  | .returns none => true
  | .returns (some []) => true
  | .returns (some (gl0 :: rest)) => gl0.isEmpty || (gl0 :: rest).any badGenList

/-- The constructor-level configuration of `RetryLLMWrapper.__init__`. -/
structure Config where
  max_retries : Nat
  min_seconds : ℚ
  max_seconds : ℚ
  factor : ℚ
deriving DecidableEq

/-- The default configuration (`max_retries=5, min_seconds=1,
max_seconds=60, factor=2`). -/
def defaultConfig : Config :=
  { max_retries := 5, min_seconds := 1, max_seconds := 60, factor := 2 }

/-- The sleep tenacity's `wait_exponential(multiplier=min_seconds,
max=max_seconds)` performs after the failure of attempt number `i + 1`
(`i` is 0-based): `max(max(0, min), min(multiplier * exp_base**(n-1), max))`
with `exp_base = 2` and `min = 0`.  Note the `factor` field plays no part. -/
def syncDelay (cfg : Config) (i : Nat) : ℚ :=
  max 0 (min (cfg.min_seconds * 2 ^ i) cfg.max_seconds)

/-- The sleep `_agenerate` performs after its `i`-th failure (0-based):
`min(self.max_seconds, self.min_seconds * (self.factor**attempt))`, where
`attempt` has already been incremented to `i + 1`. -/
def asyncDelay (cfg : Config) (i : Nat) : ℚ :=
  min cfg.max_seconds (cfg.min_seconds * cfg.factor ^ (i + 1))

/-- Terminal observable behaviour of one `_generate`/`_agenerate` run. -/
inductive RunOutcome (ε : Type) where
  | ok (r : LLMResult)
  | raised (e : LLMExc ε)
  | runtimeError
deriving DecidableEq

/-- Observable trace of one run: how many times the wrapped LLM was
invoked, the backoff sleeps in order, and the terminal outcome. -/
structure Trace (ε : Type) where
  calls : Nat
  delays : List ℚ
  outcome : RunOutcome ε
deriving DecidableEq

/-- The tenacity `Retrying` loop of `_generate`, starting at attempt index
`i` (0-based) with `fuel` further retries allowed after the current
attempt (`fuel = max_retries - 1 - i`): on success return; on failure,
stop and re-raise (`reraise=True`) if `attempt_number >= max_retries`,
else sleep `syncDelay` and run the next attempt. -/
def generateAux {ε : Type} (cfg : Config) (calls : Nat → CallOutcome ε) (i : Nat) :
    Nat → Trace ε
  | 0 =>
    match syncBody (calls i) with
    | .ok r => ⟨1, [], .ok r⟩
    | .error e => ⟨1, [], .raised e⟩
  | fuel + 1 =>
    match syncBody (calls i) with
    | .ok r => ⟨1, [], .ok r⟩
    | .error _ =>
      let t := generateAux cfg calls (i + 1) fuel
      ⟨t.calls + 1, syncDelay cfg i :: t.delays, t.outcome⟩

/-- Trace of `RetryLLMWrapper._generate` where `calls k` is the outcome of
the `k`-th invocation (0-based) of the wrapped `llm._generate`.  tenacity
always runs a first attempt, so even `max_retries = 0` performs one call. -/
def generateTrace {ε : Type} (cfg : Config) (calls : Nat → CallOutcome ε) : Trace ε :=
  generateAux cfg calls 0 (cfg.max_retries - 1)

/-- The `while attempt < self.max_retries` loop of `_agenerate`, with
`fuel = max_retries - i` loop iterations remaining: on failure increment
`attempt`; if it reaches `max_retries` re-raise (`raise`), otherwise sleep
`asyncDelay` and loop.  Falling out of the loop (only possible when
`max_retries = 0`) raises `RuntimeError`. -/
def agenerateAux {ε : Type} (cfg : Config) (calls : Nat → CallOutcome ε) (i : Nat) :
    Nat → Trace ε
  | 0 => ⟨0, [], .runtimeError⟩
  | 1 =>
    match asyncBody (calls i) with
    | .ok r => ⟨1, [], .ok r⟩
    | .error e => ⟨1, [], .raised e⟩
  | fuel + 2 =>
    match asyncBody (calls i) with
    | .ok r => ⟨1, [], .ok r⟩
    | .error _ =>
      let t := agenerateAux cfg calls (i + 1) (fuel + 1)
      ⟨t.calls + 1, asyncDelay cfg i :: t.delays, t.outcome⟩

/-- Trace of `RetryLLMWrapper._agenerate` where `calls k` is the outcome of
the `k`-th invocation (0-based) of the wrapped `llm._agenerate`. -/
def agenerateTrace {ε : Type} (cfg : Config) (calls : Nat → CallOutcome ε) : Trace ε :=
  agenerateAux cfg calls 0 cfg.max_retries

/-- Forget the message text of a wrapper-raised `ValueError` (the only
difference between the two variants' exceptions). -/
def excErase {ε : Type} : LLMExc ε → LLMExc ε
  | .valueError _ => .valueError ""
  | .underlying e => .underlying e

/-- `excErase` lifted to run outcomes. -/
def eraseMsg {ε : Type} : RunOutcome ε → RunOutcome ε
  | .raised e => .raised (excErase e)
  | o => o

/-- Two run outcomes succeed or fail the same way: equal results on
success, both raised, or both `RuntimeError`. -/
def sameStatus {ε : Type} : RunOutcome ε → RunOutcome ε → Prop
  | .ok r, .ok r' => r = r'
  | .raised _, .raised _ => True
  | .runtimeError, .runtimeError => True
  | _, _ => False

end RetryLLMWrapper

/-- A wrapped call that raises its own exception on every invocation
(exceptions numbered by the attempt index). -/
def alwaysRaises : Nat → CallOutcome Nat := fun k => .raises k

/-! ## A Python-value model for the JSON-shaped data the tools handle

Parsed JSON / tool payloads are dictionaries, lists, strings, numbers,
booleans and `None`.  Dictionaries are association lists in insertion
order, with `dget` (first binding wins, like a Python dict whose keys are
unique) and `dset` (update in place, append when absent) mirroring
`d.get(k)` / `d[k] = v`. -/

inductive JVal where
  | null
  | bool (b : Bool)
  | num (q : ℚ)
  | str (s : String)
  | arr (xs : List JVal)
  | obj (kvs : List (String × JVal))

/-- `d.get(k)`: the value of the first binding of `k`, if any. -/
def dget (d : List (String × JVal)) (k : String) : Option JVal :=
  (d.find? (fun kv => kv.1 = k)).map (fun kv => kv.2)

/-- `d[k] = v`: overwrite an existing binding in place, else append. -/
def dset (d : List (String × JVal)) (k : String) (v : JVal) : List (String × JVal) :=
  if d.any (fun kv => kv.1 = k) then
    d.map (fun kv => if kv.1 = k then (k, v) else kv)
  else d ++ [(k, v)]

/-- Python truthiness of the values a tool inspects (`if data.get("error")`,
`if not result_pair`): `None`, `False`, `0`, `""`, `[]` and ``{}`` are falsy. -/
def truthy : JVal → Bool
  | .null => false
  | .bool b => b
  | .num q => q != 0
  | .str s => s != ""
  | .arr xs => !xs.isEmpty
  | .obj kvs => !kvs.isEmpty

/-- A crude rendering of a Python value as text, standing in for `str(v)` /
`json.dumps(v)`; the claims never depend on the exact text, only on which
string-shaped result a tool returns. -/
def pyStr : JVal → String
  | .null => "None"
  | .bool b => if b then "True" else "False"
  | .num q => toString q.num
  | .str s => s
  | .arr _ => "[...]"
  | .obj _ => "\x7b...\x7d"

/-! ## `KrakenTickerInfoTool._run` (`kraken_api_tool.py` lines 34-57)

The HTTP fetch plus `response.json()` step is modelled by its outcome:
a `requests.exceptions.RequestException` (which `requests.get`,
`raise_for_status` and — in current `requests` — the JSON decode error
subclass), a plain `json.JSONDecodeError`, or a parsed JSON value.
Exceptions the `try` block does not catch escape as `.error`. -/

inductive FetchOutcome where
  | requestExc (msg : String)
  | jsonDecodeExc
  | parsed (v : JVal)

/-- An exception escaping a tool's `_run` (here: only the `AttributeError`
raised when the parsed JSON is not the dict shape the body expects). -/
inductive ToolExc where
  | attributeError
deriving DecidableEq

namespace KrakenTickerInfoTool

/-- The `try` body and the two `except` clauses of `_run`.  `data.get` and
`.keys()` require dict-shaped values; on any other shape the body raises
`AttributeError`, which no handler catches. -/
def run (pair : String) (fetch : FetchOutcome) : Except ToolExc String :=
  match fetch with
  | .requestExc msg => .ok ("Error fetching data from Kraken: " ++ msg)
  | .jsonDecodeExc => .ok "Error: Failed to parse JSON response from Kraken."
  | .parsed (.obj data) =>
    if truthy ((dget data "error").getD .null) then
      .ok ("Error from Kraken API: " ++ pyStr ((dget data "error").getD .null))
    else
      match (dget data "result").getD (.obj []) with
      | .obj result =>
        match result with
        | [] => .ok ("No data found for pair " ++ pair ++ ". It may be an invalid pair.")
        | (_, tickerData) :: _ => .ok (pyStr tickerData)
      | _ => .error .attributeError
  | .parsed _ => .error .attributeError

end KrakenTickerInfoTool

/-! ## `YahooFinanceTickerInfoTool._run` (`yahoo_finance_tool.py` 73-102)

The `yfinance` lookup (`yf.Ticker(ticker).info`) is modelled by its
outcome: an exception message, or the `info` dictionary.  The whole body
sits in `try: ... except Exception`, so `_run` always returns a dict. -/

namespace YahooFinanceTickerInfoTool

/-- `info.get(key, default)` with the `"N/A"` default used throughout. -/
def infoGet (info : List (String × JVal)) (k : String) (dflt : JVal) : JVal :=
  (dget info k).getD dflt

/-- The `"N/A"` placeholder value. -/
def naVal : JVal := .str "N/A"

/-- The `result` dict built by the `try` body, then filtered of `"N/A"`s. -/
def buildResult (ticker : String) (info : List (String × JVal)) : List (String × JVal) :=
  [("symbol", JVal.str ticker),
   ("name", infoGet info "shortName" naVal),
   ("currency", infoGet info "currency" naVal),
   ("current_price", infoGet info "currentPrice" (infoGet info "regularMarketPrice" naVal)),
   ("previous_close", infoGet info "previousClose" naVal),
   ("market_cap", infoGet info "marketCap" naVal),
   ("volume", infoGet info "volume" naVal),
   ("average_volume", infoGet info "averageVolume" naVal),
   ("52wk_high", infoGet info "fiftyTwoWeekHigh" naVal),
   ("52wk_low", infoGet info "fiftyTwoWeekLow" naVal),
   ("pe_ratio", infoGet info "trailingPE" naVal),
   ("dividend_yield", infoGet info "dividendYield" naVal),
   ("sector", infoGet info "sector" naVal),
   ("industry", infoGet info "industry" naVal)]

/-- Whether a value is the string `"N/A"` (Python `v == "N/A"` is false for
every non-string value). -/
def isNA : JVal → Bool
  | .str s => s = "N/A"
  | _ => false

/-- The comprehension `{k: v for k, v in result.items() if v != "N/A"}`. -/
def dropNA (result : List (String × JVal)) : List (String × JVal) :=
  result.filter (fun kv => !isNA kv.2)

/-- `_run`: never raises; an exception from the lookup becomes an
`{"error": ...}` dict. -/
def run (ticker : String) (infoOutcome : Except String (List (String × JVal))) :
    Except ToolExc (List (String × JVal)) :=
  match infoOutcome with
  | .ok info => .ok (dropNA (buildResult ticker info))
  | .error msg =>
    .ok [("error", JVal.str ("Failed to get ticker info for " ++ ticker ++ ": " ++ msg))]

end YahooFinanceTickerInfoTool

/-! ## `JSONOutputTool` (`json_output_tool.py`)

`_standardize_data` reshapes the input dict in place; `_run` serializes it
and either returns the JSON text or writes it to `output_path` (the write
sits outside any `try`, so a file-system error escapes). -/

namespace JSONOutputTool

/-- The `required_keys` list of `_standardize_data`. -/
def requiredKeys : List String :=
  ["crew_type", "analysis_date", "recommendations", "tickers_analyzed"]

/-- One iteration of the first loop of `_standardize_data`: add the
required key when missing, with `[]` for the two list-valued keys and `""`
otherwise. -/
def addKeyStep (d : List (String × JVal)) (k : String) : List (String × JVal) :=
  if (dget d k).isSome then d
  else if k = "recommendations" then dset d k (.arr [])
  else if k = "tickers_analyzed" then dset d k (.arr [])
  else dset d k (.str "")

/-- The first loop of `_standardize_data`: add each missing required key. -/
def addMissingKeys (data : List (String × JVal)) : List (String × JVal) :=
  requiredKeys.foldl addKeyStep data

/-- The ten standard recommendation fields with their `rec.get` defaults,
in the order `standard_rec` lists them. -/
def standardFields : List (String × JVal) :=
  [("ticker", .str ""), ("name", .str ""), ("action", .str ""), ("price", .num 0),
   ("currency", .str "CHF"), ("allocation", .num 0), ("rationale", .str ""),
   ("risk_level", .str ""), ("expected_return", .str ""), ("timeframe", .str "")]

/-- One iteration of the field-preserving loop of `_standardize_data`:
`if k not in standard_rec: standard_rec[k] = v` (appending a fresh key to
a dict adds it at the end). -/
def keepNewField (acc : List (String × JVal)) (kv : String × JVal) :
    List (String × JVal) :=
  if (dget acc kv.1).isSome then acc else acc ++ [kv]

/-- Build `standard_rec` from one recommendation dict: the ten standard
fields (taking `rec`'s value when present, the default otherwise), then
`standard_rec[k] = v` for each field of `rec` not already present. -/
def standardizeRec (rec : List (String × JVal)) : List (String × JVal) :=
  rec.foldl keepNewField
    (standardFields.map (fun kd => (kd.1, (dget rec kd.1).getD kd.2)))

/-- One iteration over `data["recommendations"]`: standardize a dict
element, drop anything else. -/
def recListStep (acc : List JVal) (r : JVal) : List JVal :=
  match r with
  | .obj rec => acc ++ [JVal.obj (standardizeRec rec)]
  | _ => acc

/-- The recommendation-list pass: keep (standardized) dict elements, drop
everything else, preserving order. -/
def standardizeRecList (recs : List JVal) : List JVal :=
  recs.foldl recListStep []

/-- `_standardize_data` (lines 73-129). -/
def standardizeData (data : List (String × JVal)) : List (String × JVal) :=
  let d := addMissingKeys data
  match dget d "recommendations" with
  | some (.arr recs) => dset d "recommendations" (.arr (standardizeRecList recs))
  | _ => d

/-- `_run` (lines 46-71): standardize, serialize, then either return the
JSON text, or write it to `output_path` — an exception from `open`/`write`
is not caught and escapes. -/
def run (data : List (String × JVal)) (outputPath : Option String)
    (writeOutcome : Except String Unit) : Except String String :=
  let jsonOutput := pyStr (JVal.obj (standardizeData data))
  match outputPath with
  | some p =>
    match writeOutcome with
    | .ok _ => .ok ("JSON output saved to " ++ p)
    | .error e => .error e
  | none => .ok jsonOutput

end JSONOutputTool

/-! ## The `CryptoFlow` analysis stages (`main.py`)

`check_stock`, `check_etf` and `check_crypto` are textually identical up
to the stage's crew, result file and state field.  Each runs against an
environment recording whether the stage's JSON file exists, what reading
it would yield, what running the crew would yield, and whether writing the
file would succeed.  The observable outcome records whether the crew was
invoked, the value stored into the stage's flow-state field, the contents
written to the stage's file, and a propagated exception, if any. -/

/-- The identity of one analysis stage: its result-file name and the
flow-state field it fills. -/
structure StageSpec where
  fileName : String
  stateField : String
deriving DecidableEq

/-- `check_stock` writes `stock_unicorn_investment_recommendations.json`
into state field `stock_result`. -/
def stockStage : StageSpec :=
  ⟨"stock_unicorn_investment_recommendations.json", "stock_result"⟩

/-- `check_etf` writes `etf_unicorn_investment_recommendations.json` into
state field `etf_result`. -/
def etfStage : StageSpec :=
  ⟨"etf_unicorn_investment_recommendations.json", "etf_result"⟩

/-- `check_crypto` writes `crypto_unicorn_investment_recommendations.json`
into state field `crypto_result`. -/
def cryptoStage : StageSpec :=
  ⟨"crypto_unicorn_investment_recommendations.json", "crypto_result"⟩

/-- The stage's environment: the file-system and crew behaviour this run
would observe. -/
structure StageEnv where
  fileExists : Bool
  readOutcome : Except String String
  crewOutcome : Except String String
  writeOutcome : Except String Unit

/-- The stage's observable effects: whether its crew ran, the assignment
made to a flow-state field (field name, value), the file write performed
(file name, contents), and a propagated exception, if any. -/
structure StageOutcome where
  crewInvoked : Bool
  stateAssign : Option (String × String)
  fileWrite : Option (String × String)
  raised : Option String
deriving DecidableEq

/-- The crew branch shared by all three stages: kick off the crew; on
success store `result.raw` in the stage's state field, then try to write
it to the stage's file (a write failure is only logged); a crew exception
is logged and re-raised. -/
def runCrewBranch (stage : StageSpec) (env : StageEnv) : StageOutcome :=
  match env.crewOutcome with
  | .ok raw =>
    match env.writeOutcome with
    | .ok _ => ⟨true, some (stage.stateField, raw), some (stage.fileName, raw), none⟩
    | .error _ => ⟨true, some (stage.stateField, raw), none, none⟩
  | .error msg => ⟨true, none, none, some msg⟩

/-- One analysis stage (`check_stock` / `check_etf` / `check_crypto`,
`main.py` lines 100-156, 158-217, 219-289): if the stage's JSON file
exists, try to read it — on success store its contents in the stage's
state field and return without touching the crew; on a read failure (or
when the file does not exist) fall through to the crew branch. -/
def runStage (stage : StageSpec) (env : StageEnv) : StageOutcome :=
  if env.fileExists then
    match env.readOutcome with
    | .ok contents => ⟨false, some (stage.stateField, contents), none, none⟩
    | .error _ => runCrewBranch stage env
  else runCrewBranch stage env

/-! ## `patch_crewai_llm_initialization` (`crewai_retry_patch.py`)

The module state is the `_PATCHED` flag plus, for each of the two patched
callables (`CrewAIAgent._get_llm` and `OpenAIAdapter.get_model`), how many
retry wrappers the current method stacks around the original.  One call is
a state transition: return immediately when `_PATCHED` is set; otherwise,
when the `crewai` imports succeed, replace both methods with wrapping
versions and set the flag; an `ImportError` (or other failure) is caught
and logged, leaving the state unchanged. -/

structure PatchState where
  patched : Bool
  getLlmWraps : Nat
  getModelWraps : Nat
deriving DecidableEq

/-- The arguments of one `patch_crewai_llm_initialization` call, together
with the environment it finds: whether the `crewai` imports succeed and
whether `OpenAIAdapter` has a `get_model` attribute. -/
structure PatchCall where
  max_retries : Nat
  verbose : Bool
  importOk : Bool
  hasGetModel : Bool
deriving DecidableEq

/-- `patch_crewai_llm_initialization` (lines 24-95) as a state transition. -/
def patchCrewaiLlmInitialization (c : PatchCall) (st : PatchState) : PatchState :=
  if st.patched then st
  else if c.importOk then
    { patched := true,
      getLlmWraps := st.getLlmWraps + 1,
      getModelWraps := if c.hasGetModel then st.getModelWraps + 1 else st.getModelWraps }
  else st

/-- The module-load state: `_PATCHED = False`, unpatched methods. -/
def initialPatchState : PatchState := ⟨false, 0, 0⟩

/-! ## Concrete fixtures used by witnesses and counterexamples -/

open RetryLLMWrapper

/-- A three-attempt configuration. -/
def cfgW1 : Config := ⟨3, 1, 60, 2⟩

/-- A two-attempt configuration. -/
def cfgW2 : Config := ⟨2, 1, 60, 2⟩

/-- Fails twice (raising the attempt index), then returns a good result. -/
def succCalls : Nat → CallOutcome Nat :=
  fun k => if k < 2 then .raises k else .returns (some [[⟨"ok"⟩]])

/-- Succeeds immediately with a good result. -/
def goodCalls : Nat → CallOutcome Nat :=
  fun _ => .returns (some [[⟨"ok"⟩]])

/-! ## Helper lemmas: the attempt body -/

namespace RetryLLMWrapper

theorem checkBody_error_of_failsCheck {ε : Type} (m₁ m₂ : String) (o : CallOutcome ε)
    (h : failsCheck o = true) : ∃ e, checkBody m₁ m₂ o = .error e := by
  cases o with
  | raises e => exact ⟨.underlying e, rfl⟩
  | returns r =>
    match r with
    | none => exact ⟨.valueError m₁, rfl⟩
    | some [] => exact ⟨.valueError m₁, rfl⟩
    | some (gl0 :: rest) =>
      simp only [failsCheck, Bool.or_eq_true] at h
      simp only [checkBody]
      rcases h with h | h
      · rw [if_pos h]; exact ⟨.valueError m₁, rfl⟩
      · by_cases hgl : gl0.isEmpty
        · rw [if_pos hgl]; exact ⟨.valueError m₁, rfl⟩
        · rw [if_neg hgl, if_pos h]; exact ⟨.valueError m₂, rfl⟩

theorem checkBody_ok_of_not_failsCheck {ε : Type} (m₁ m₂ : String) (o : CallOutcome ε)
    (h : failsCheck o = false) : ∃ r, checkBody m₁ m₂ o = .ok r := by
  cases o with
  | raises e => simp [failsCheck] at h
  | returns r =>
    match r with
    | none => simp [failsCheck] at h
    | some [] => simp [failsCheck] at h
    | some (gl0 :: rest) =>
      simp only [failsCheck, Bool.or_eq_false_iff] at h
      refine ⟨gl0 :: rest, ?_⟩
      simp only [checkBody]
      rw [if_neg (by simp [h.1]), if_neg (by simp [h.2])]

theorem failsCheck_of_checkBody_error {ε : Type} {m₁ m₂ : String} {o : CallOutcome ε}
    {e : LLMExc ε} (h : checkBody m₁ m₂ o = .error e) : failsCheck o = true := by
  by_contra hfc
  obtain ⟨r, hr⟩ :=
    checkBody_ok_of_not_failsCheck m₁ m₂ o (Bool.eq_false_iff.mpr (by simpa using hfc))
  rw [h] at hr
  exact Except.noConfusion hr

/-- The attempt body's success value does not depend on the message
strings: if one variant's body accepts a call outcome, the other's accepts
it with the same result. -/
theorem checkBody_ok_eq {ε : Type} (m₁ m₂ m₁' m₂' : String) (o : CallOutcome ε)
    {r : LLMResult} (h : checkBody m₁ m₂ o = .ok r) : checkBody m₁' m₂' o = .ok r := by
  cases o with
  | raises e => exact absurd h (by simp [checkBody])
  | returns v =>
    match v with
    | none => exact absurd h (by simp [checkBody])
    | some [] => exact absurd h (by simp [checkBody])
    | some (gl0 :: rest) =>
      simp only [checkBody] at h ⊢
      by_cases h1 : gl0.isEmpty
      · rw [if_pos h1] at h; exact absurd h (by simp)
      · rw [if_neg h1] at h ⊢
        by_cases h2 : (gl0 :: rest).any badGenList
        · rw [if_pos h2] at h; exact absurd h (by simp)
        · rw [if_neg h2] at h ⊢; exact h

theorem failsCheck_of_checkBody_ok {ε : Type} {m₁ m₂ : String} {o : CallOutcome ε}
    {r : LLMResult} (h : checkBody m₁ m₂ o = .ok r) : failsCheck o = false := by
  cases hfc : failsCheck o
  · rfl
  · obtain ⟨e, he⟩ := checkBody_error_of_failsCheck m₁ m₂ o hfc
    rw [he] at h
    exact Except.noConfusion h

end RetryLLMWrapper

/-! ## Helper lemmas: the two retry loops -/

namespace RetryLLMWrapper

theorem syncBody_error_of_failsCheck {ε : Type} {o : CallOutcome ε}
    (h : failsCheck o = true) : ∃ e, syncBody o = .error e :=
  checkBody_error_of_failsCheck _ _ o h

theorem asyncBody_error_of_failsCheck {ε : Type} {o : CallOutcome ε}
    (h : failsCheck o = true) : ∃ e, asyncBody o = .error e :=
  checkBody_error_of_failsCheck _ _ o h

theorem asyncBody_ok_of_syncBody_ok {ε : Type} {o : CallOutcome ε} {r : LLMResult}
    (h : syncBody o = .ok r) : asyncBody o = .ok r :=
  checkBody_ok_eq _ _ _ _ o h

/-- If every call fails, `generateAux` spends all its fuel: `fuel + 1`
attempts, a `syncDelay` before each retry, and the last attempt's
exception as outcome. -/
theorem generateAux_fail {ε : Type} (cfg : Config) (calls : Nat → CallOutcome ε)
    (h : ∀ j, failsCheck (calls j) = true) (fuel : Nat) : ∀ i : Nat,
    (generateAux cfg calls i fuel).calls = fuel + 1 ∧
    (generateAux cfg calls i fuel).delays =
      (List.range fuel).map (fun j => syncDelay cfg (i + j)) ∧
    ∃ e, syncBody (calls (i + fuel)) = .error e ∧
      (generateAux cfg calls i fuel).outcome = .raised e := by
  induction fuel with
  | zero =>
    intro i
    obtain ⟨e, he⟩ := syncBody_error_of_failsCheck (h i)
    refine ⟨?_, ?_, e, by simpa using he, ?_⟩ <;> simp [generateAux, he]
  | succ fuel ih =>
    intro i
    obtain ⟨e, he⟩ := syncBody_error_of_failsCheck (h i)
    obtain ⟨hc, hd, e', he', ho⟩ := ih (i + 1)
    refine ⟨?_, ?_, e', ?_, ?_⟩
    · simp [generateAux, he, hc]
    · simp only [generateAux, he]
      rw [List.range_succ_eq_map]
      simp [hd, List.map_map, Function.comp]
      intro a _
      rw [Nat.add_assoc, Nat.add_comm 1 a]
    · simpa [Nat.add_assoc, Nat.add_comm 1 fuel] using he'
    · simp [generateAux, he, ho]

/-- If every call fails, `agenerateAux` with positive fuel makes `fuel + 1`
attempts... (here fuel counts the loop bound `max_retries - i`, so with
`fuel + 1` iterations available it makes `fuel + 1` calls), with an
`asyncDelay` before each retry and the last attempt's exception raised. -/
theorem agenerateAux_fail {ε : Type} (cfg : Config) (calls : Nat → CallOutcome ε)
    (h : ∀ j, failsCheck (calls j) = true) (fuel : Nat) : ∀ i : Nat,
    (agenerateAux cfg calls i (fuel + 1)).calls = fuel + 1 ∧
    (agenerateAux cfg calls i (fuel + 1)).delays =
      (List.range fuel).map (fun j => asyncDelay cfg (i + j)) ∧
    ∃ e, asyncBody (calls (i + fuel)) = .error e ∧
      (agenerateAux cfg calls i (fuel + 1)).outcome = .raised e := by
  induction fuel with
  | zero =>
    intro i
    obtain ⟨e, he⟩ := asyncBody_error_of_failsCheck (h i)
    refine ⟨?_, ?_, e, by simpa using he, ?_⟩ <;> simp [agenerateAux, he]
  | succ fuel ih =>
    intro i
    obtain ⟨e, he⟩ := asyncBody_error_of_failsCheck (h i)
    obtain ⟨hc, hd, e', he', ho⟩ := ih (i + 1)
    refine ⟨?_, ?_, e', ?_, ?_⟩
    · simp [agenerateAux, he, hc]
    · simp only [agenerateAux, he]
      rw [List.range_succ_eq_map]
      simp [hd, List.map_map, Function.comp]
      intro a _
      rw [Nat.add_assoc, Nat.add_comm 1 a]
    · simpa [Nat.add_assoc, Nat.add_comm 1 fuel] using he'
    · simp [agenerateAux, he, ho]

/-- If the first `K` calls (relative to `i`) fail and call `K` succeeds
with result `r`, `generateAux` with fuel at least `K` makes `K + 1` calls,
sleeps `K` times, and returns `r`. -/
theorem generateAux_succ {ε : Type} (cfg : Config) (calls : Nat → CallOutcome ε)
    {r : LLMResult} (K : Nat) : ∀ (i fuel : Nat),
    (∀ j, j < K → failsCheck (calls (i + j)) = true) →
    syncBody (calls (i + K)) = .ok r →
    K ≤ fuel →
    generateAux cfg calls i fuel =
      ⟨K + 1, (List.range K).map (fun j => syncDelay cfg (i + j)), .ok r⟩ := by
  induction K with
  | zero =>
    intro i fuel _ hs _
    simp only [Nat.add_zero] at hs
    cases fuel <;> simp [generateAux, hs]
  | succ K ih =>
    intro i fuel hf hs hK
    obtain ⟨fuel', rfl⟩ : ∃ f, fuel = f + 1 :=
      ⟨fuel - 1, by omega⟩
    obtain ⟨e, he⟩ := syncBody_error_of_failsCheck (by simpa using hf 0 (by omega))
    have ht := ih (i + 1) fuel'
      (fun j hj => by
        have := hf (j + 1) (by omega)
        simpa [Nat.add_assoc, Nat.add_comm 1 j] using this)
      (by simpa [Nat.add_assoc, Nat.add_comm 1 K] using hs)
      (by omega)
    simp only [generateAux, he, ht]
    refine congrArg (fun l => Trace.mk (K + 1 + 1) l (.ok r)) ?_
    rw [List.range_succ_eq_map]
    simp [List.map_map, Function.comp]
    intro a _
    rw [Nat.add_assoc, Nat.add_comm 1 a]

/-- The `_agenerate` analogue of `generateAux_succ`: the loop needs
`K < fuel` iterations available. -/
theorem agenerateAux_succ {ε : Type} (cfg : Config) (calls : Nat → CallOutcome ε)
    {r : LLMResult} (K : Nat) : ∀ (i fuel : Nat),
    (∀ j, j < K → failsCheck (calls (i + j)) = true) →
    asyncBody (calls (i + K)) = .ok r →
    K < fuel →
    agenerateAux cfg calls i fuel =
      ⟨K + 1, (List.range K).map (fun j => asyncDelay cfg (i + j)), .ok r⟩ := by
  induction K with
  | zero =>
    intro i fuel _ hs hK
    simp only [Nat.add_zero] at hs
    match fuel, hK with
    | 1, _ => simp [agenerateAux, hs]
    | f + 2, _ => simp [agenerateAux, hs]
  | succ K ih =>
    intro i fuel hf hs hK
    obtain ⟨fuel', rfl⟩ : ∃ f, fuel = f + 2 :=
      ⟨fuel - 2, by omega⟩
    obtain ⟨e, he⟩ := asyncBody_error_of_failsCheck (by simpa using hf 0 (by omega))
    have ht := ih (i + 1) (fuel' + 1)
      (fun j hj => by
        have := hf (j + 1) (by omega)
        simpa [Nat.add_assoc, Nat.add_comm 1 j] using this)
      (by simpa [Nat.add_assoc, Nat.add_comm 1 K] using hs)
      (by omega)
    simp only [agenerateAux, he, ht]
    refine congrArg (fun l => Trace.mk (K + 1 + 1) l (.ok r)) ?_
    rw [List.range_succ_eq_map]
    simp [List.map_map, Function.comp]
    intro a _
    rw [Nat.add_assoc, Nat.add_comm 1 a]

/-- Whatever the call outcomes, the `j`-th sleep `generateAux` performs is
`syncDelay` at absolute retry index `i + j`. -/
theorem generateAux_delay {ε : Type} (cfg : Config) (calls : Nat → CallOutcome ε)
    (fuel : Nat) : ∀ i j q,
    (generateAux cfg calls i fuel).delays.get? j = some q →
    q = syncDelay cfg (i + j) := by
  induction fuel with
  | zero =>
    intro i j q hq
    rcases hb : syncBody (calls i) <;> simp [generateAux, hb] at hq
  | succ fuel ih =>
    intro i j q hq
    rcases hb : syncBody (calls i) with e | r
    · simp only [generateAux, hb] at hq
      match j, hq with
      | 0, hq => simpa [Nat.add_zero] using hq.symm
      | j + 1, hq =>
        have := ih (i + 1) j q (by simpa using hq)
        rwa [Nat.add_assoc, Nat.add_comm 1 j] at this
    · simp [generateAux, hb] at hq

/-- Whatever the call outcomes, the `j`-th sleep `agenerateAux` performs
is `asyncDelay` at absolute retry index `i + j`. -/
theorem agenerateAux_delay {ε : Type} (cfg : Config) (calls : Nat → CallOutcome ε) :
    ∀ (fuel : Nat) i j q,
    (agenerateAux cfg calls i fuel).delays.get? j = some q →
    q = asyncDelay cfg (i + j)
  | 0, i, j, q, hq => by simp [agenerateAux] at hq
  | 1, i, j, q, hq => by
    rcases hb : asyncBody (calls i) with e | r <;> simp [agenerateAux, hb] at hq
  | fuel + 2, i, j, q, hq => by
    rcases hb : asyncBody (calls i) with e | r
    · simp only [agenerateAux, hb] at hq
      match j, hq with
      | 0, hq => simpa [Nat.add_zero] using hq.symm
      | j + 1, hq =>
        have := agenerateAux_delay cfg calls (fuel + 1) (i + 1) j q (by simpa using hq)
        rwa [Nat.add_assoc, Nat.add_comm 1 j] at this
    · simp [agenerateAux, hb] at hq


/-- When both attempt bodies reject a call outcome, their exceptions agree
up to the `ValueError` message text. -/
theorem body_error_erase {ε : Type} {o : CallOutcome ε} {e e' : LLMExc ε}
    (hs : syncBody o = .error e) (ha : asyncBody o = .error e') :
    excErase e = excErase e' := by
  cases o with
  | raises e0 =>
    simp only [syncBody, asyncBody, checkBody, Except.error.injEq] at hs ha
    rw [← hs, ← ha]
  | returns v =>
    match v with
    | none =>
      simp only [syncBody, asyncBody, checkBody, Except.error.injEq] at hs ha
      rw [← hs, ← ha]
      rfl
    | some [] =>
      simp only [syncBody, asyncBody, checkBody, Except.error.injEq] at hs ha
      rw [← hs, ← ha]
      rfl
    | some (gl0 :: rest) =>
      simp only [syncBody, asyncBody, checkBody] at hs ha
      by_cases h1 : gl0.isEmpty
      · rw [if_pos h1] at hs ha
        simp only [Except.error.injEq] at hs ha
        rw [← hs, ← ha]
        rfl
      · rw [if_neg h1] at hs ha
        by_cases h2 : (gl0 :: rest).any badGenList
        · rw [if_pos h2] at hs ha
          simp only [Except.error.injEq] at hs ha
          rw [← hs, ← ha]
          rfl
        · rw [if_neg h2] at hs
          exact absurd hs (by simp)

/-- The two retry loops, run on the same call outcomes with matching
bounds (`fuel` retries left after the current attempt versus `fuel + 1`
loop iterations available), make the same number of calls, sleep the same
number of times, and end in the same outcome up to `ValueError` text. -/
theorem generate_agenerate_rel {ε : Type} (cfg : Config) (calls : Nat → CallOutcome ε)
    (fuel : Nat) : ∀ i,
    (generateAux cfg calls i fuel).calls = (agenerateAux cfg calls i (fuel + 1)).calls ∧
    (generateAux cfg calls i fuel).delays.length =
      (agenerateAux cfg calls i (fuel + 1)).delays.length ∧
    eraseMsg (generateAux cfg calls i fuel).outcome =
      eraseMsg (agenerateAux cfg calls i (fuel + 1)).outcome := by
  induction fuel with
  | zero =>
    intro i
    rcases hs : syncBody (calls i) with e | r
    · obtain ⟨e', ha⟩ := asyncBody_error_of_failsCheck (failsCheck_of_checkBody_error hs)
      refine ⟨?_, ?_, ?_⟩ <;>
        simp [generateAux, agenerateAux, hs, ha, eraseMsg, body_error_erase hs ha]
    · have ha := asyncBody_ok_of_syncBody_ok hs
      refine ⟨?_, ?_, ?_⟩ <;> simp [generateAux, agenerateAux, hs, ha]
  | succ fuel ih =>
    intro i
    rcases hs : syncBody (calls i) with e | r
    · obtain ⟨e', ha⟩ := asyncBody_error_of_failsCheck (failsCheck_of_checkBody_error hs)
      obtain ⟨hc, hd, ho⟩ := ih (i + 1)
      refine ⟨?_, ?_, ?_⟩ <;> simp [generateAux, agenerateAux, hs, ha, hc, hd, ho]
    · have ha := asyncBody_ok_of_syncBody_ok hs
      refine ⟨?_, ?_, ?_⟩ <;> simp [generateAux, agenerateAux, hs, ha]


/-- Call sequences that fail at the same positions and agree on successful
outcomes produce `generateAux` traces with the same call count, the same
delays, and outcomes of the same status. -/
theorem generateAux_congr {ε : Type} (cfg : Config)
    (calls₁ calls₂ : Nat → CallOutcome ε)
    (h : ∀ j, failsCheck (calls₁ j) = failsCheck (calls₂ j) ∧
      (failsCheck (calls₁ j) = false → calls₁ j = calls₂ j))
    (fuel : Nat) : ∀ i,
    (generateAux cfg calls₁ i fuel).calls = (generateAux cfg calls₂ i fuel).calls ∧
    (generateAux cfg calls₁ i fuel).delays = (generateAux cfg calls₂ i fuel).delays ∧
    sameStatus (generateAux cfg calls₁ i fuel).outcome
      (generateAux cfg calls₂ i fuel).outcome := by
  induction fuel with
  | zero =>
    intro i
    cases hfc : failsCheck (calls₁ i) with
    | false =>
      have heq : calls₁ i = calls₂ i := (h i).2 hfc
      obtain ⟨r, hr⟩ := checkBody_ok_of_not_failsCheck
        "Empty response from LLM call" "Empty content in LLM response" (calls₁ i) hfc
      have hr₁ : syncBody (calls₁ i) = .ok r := hr
      have hr₂ : syncBody (calls₂ i) = .ok r := heq ▸ hr
      refine ⟨?_, ?_, ?_⟩ <;> simp [generateAux, hr₁, hr₂, sameStatus]
    | true =>
      obtain ⟨e₁, he₁⟩ := syncBody_error_of_failsCheck hfc
      obtain ⟨e₂, he₂⟩ := syncBody_error_of_failsCheck ((h i).1 ▸ hfc)
      refine ⟨?_, ?_, ?_⟩ <;> simp [generateAux, he₁, he₂, sameStatus]
  | succ fuel ih =>
    intro i
    cases hfc : failsCheck (calls₁ i) with
    | false =>
      have heq : calls₁ i = calls₂ i := (h i).2 hfc
      obtain ⟨r, hr⟩ := checkBody_ok_of_not_failsCheck
        "Empty response from LLM call" "Empty content in LLM response" (calls₁ i) hfc
      have hr₁ : syncBody (calls₁ i) = .ok r := hr
      have hr₂ : syncBody (calls₂ i) = .ok r := heq ▸ hr
      refine ⟨?_, ?_, ?_⟩ <;> simp [generateAux, hr₁, hr₂, sameStatus]
    | true =>
      obtain ⟨e₁, he₁⟩ := syncBody_error_of_failsCheck hfc
      obtain ⟨e₂, he₂⟩ := syncBody_error_of_failsCheck ((h i).1 ▸ hfc)
      obtain ⟨hc, hd, ho⟩ := ih (i + 1)
      refine ⟨?_, ?_, ?_⟩ <;> simp [generateAux, he₁, he₂, hc, hd, ho]

/-- The `_agenerate` analogue of `generateAux_congr`. -/
theorem agenerateAux_congr {ε : Type} (cfg : Config)
    (calls₁ calls₂ : Nat → CallOutcome ε)
    (h : ∀ j, failsCheck (calls₁ j) = failsCheck (calls₂ j) ∧
      (failsCheck (calls₁ j) = false → calls₁ j = calls₂ j)) :
    ∀ (fuel i : Nat),
    (agenerateAux cfg calls₁ i fuel).calls = (agenerateAux cfg calls₂ i fuel).calls ∧
    (agenerateAux cfg calls₁ i fuel).delays = (agenerateAux cfg calls₂ i fuel).delays ∧
    sameStatus (agenerateAux cfg calls₁ i fuel).outcome
      (agenerateAux cfg calls₂ i fuel).outcome
  | 0, i => by simp [agenerateAux, sameStatus]
  | 1, i => by
    cases hfc : failsCheck (calls₁ i) with
    | false =>
      have heq : calls₁ i = calls₂ i := (h i).2 hfc
      obtain ⟨r, hr⟩ := checkBody_ok_of_not_failsCheck
        "Empty response from async LLM call" "Empty content in async LLM response"
        (calls₁ i) hfc
      have hr₁ : asyncBody (calls₁ i) = .ok r := hr
      have hr₂ : asyncBody (calls₂ i) = .ok r := heq ▸ hr
      refine ⟨?_, ?_, ?_⟩ <;> simp [agenerateAux, hr₁, hr₂, sameStatus]
    | true =>
      obtain ⟨e₁, he₁⟩ := asyncBody_error_of_failsCheck hfc
      obtain ⟨e₂, he₂⟩ := asyncBody_error_of_failsCheck ((h i).1 ▸ hfc)
      refine ⟨?_, ?_, ?_⟩ <;> simp [agenerateAux, he₁, he₂, sameStatus]
  | fuel + 2, i => by
    cases hfc : failsCheck (calls₁ i) with
    | false =>
      have heq : calls₁ i = calls₂ i := (h i).2 hfc
      obtain ⟨r, hr⟩ := checkBody_ok_of_not_failsCheck
        "Empty response from async LLM call" "Empty content in async LLM response"
        (calls₁ i) hfc
      have hr₁ : asyncBody (calls₁ i) = .ok r := hr
      have hr₂ : asyncBody (calls₂ i) = .ok r := heq ▸ hr
      refine ⟨?_, ?_, ?_⟩ <;> simp [agenerateAux, hr₁, hr₂, sameStatus]
    | true =>
      obtain ⟨e₁, he₁⟩ := asyncBody_error_of_failsCheck hfc
      obtain ⟨e₂, he₂⟩ := asyncBody_error_of_failsCheck ((h i).1 ▸ hfc)
      obtain ⟨hc, hd, ho⟩ := agenerateAux_congr cfg calls₁ calls₂ h (fuel + 1) (i + 1)
      refine ⟨?_, ?_, ?_⟩ <;> simp [agenerateAux, he₁, he₂, hc, hd, ho]

end RetryLLMWrapper


/-! ## Helper lemmas: dictionaries -/

theorem dget_append (d₁ d₂ : List (String × JVal)) (k : String) :
    dget (d₁ ++ d₂) k = (dget d₁ k).or (dget d₂ k) := by
  unfold dget
  rw [List.find?_append]
  cases List.find? (fun kv => kv.1 = k) d₁ <;> simp

theorem dget_append_some {d₁ : List (String × JVal)} {k : String} {v : JVal}
    (d₂ : List (String × JVal)) (h : dget d₁ k = some v) :
    dget (d₁ ++ d₂) k = some v := by
  rw [dget_append, h]
  rfl

theorem dget_append_none {d₁ : List (String × JVal)} {k : String}
    (d₂ : List (String × JVal)) (h : dget d₁ k = none) :
    dget (d₁ ++ d₂) k = dget d₂ k := by
  rw [dget_append, h]
  rfl

theorem dget_single_self (k : String) (v : JVal) : dget [(k, v)] k = some v := by
  simp [dget]

theorem dget_single_other {k k' : String} (v : JVal) (h : k' ≠ k) :
    dget [(k, v)] k' = none := by
  unfold dget
  rw [List.find?_cons_of_neg _ (by simpa using fun hh => h (hh.symm))]
  rfl

/-- Updating every binding of `k` in place rewrites exactly the first
binding `dget` sees. -/
theorem dget_map_update_self (d : List (String × JVal)) (k : String) (v : JVal) :
    dget (d.map (fun kv => if kv.1 = k then (k, v) else kv)) k =
      (dget d k).map (fun _ => v) := by
  induction d with
  | nil => rfl
  | cons kv d ih =>
    by_cases hk : kv.1 = k
    · simp [dget, hk]
    · simp only [List.map_cons, if_neg hk]
      unfold dget at ih ⊢
      rw [List.find?_cons_of_neg _ (by simpa using hk),
        List.find?_cons_of_neg _ (by simpa using hk)]
      exact ih

theorem dget_map_update_other (d : List (String × JVal)) (k : String) (v : JVal)
    {k' : String} (h : k' ≠ k) :
    dget (d.map (fun kv => if kv.1 = k then (k, v) else kv)) k' = dget d k' := by
  induction d with
  | nil => rfl
  | cons kv d ih =>
    by_cases hk : kv.1 = k
    · simp only [List.map_cons, if_pos hk]
      unfold dget at ih ⊢
      rw [List.find?_cons_of_neg _ (by simpa using fun hh => h hh.symm),
        List.find?_cons_of_neg _ (by simp [hk]; exact fun hh => h hh.symm)]
      exact ih
    · simp only [List.map_cons, if_neg hk]
      by_cases hk' : kv.1 = k'
      · unfold dget
        rw [List.find?_cons_of_pos _ (by simpa using hk'),
          List.find?_cons_of_pos _ (by simpa using hk')]
      · unfold dget at ih ⊢
        rw [List.find?_cons_of_neg _ (by simpa using hk'),
          List.find?_cons_of_neg _ (by simpa using hk')]
        exact ih

theorem dget_dset_self (d : List (String × JVal)) (k : String) (v : JVal) :
    dget (dset d k v) k = some v := by
  unfold dset
  by_cases h : d.any (fun kv => kv.1 = k)
  · rw [if_pos h, dget_map_update_self]
    have h2 : (List.find? (fun kv => kv.1 = k) d).isSome := by
      rw [List.find?_isSome]
      obtain ⟨x, hx, hp⟩ := List.any_eq_true.mp h
      exact ⟨x, hx, hp⟩
    obtain ⟨kv0, hkv0⟩ := Option.isSome_iff_exists.mp h2
    unfold dget
    rw [hkv0]
    rfl
  · rw [if_neg h]
    have hnone : dget d k = none := by
      unfold dget
      rw [List.find?_eq_none.mpr]
      · rfl
      · intro x hx hp
        exact h (List.any_eq_true.mpr ⟨x, hx, hp⟩)
    rw [dget_append_none _ hnone]
    exact dget_single_self k v

theorem dget_dset_other (d : List (String × JVal)) (k : String) (v : JVal)
    {k' : String} (h : k' ≠ k) :
    dget (dset d k v) k' = dget d k' := by
  unfold dset
  by_cases hany : d.any (fun kv => kv.1 = k)
  · rw [if_pos hany, dget_map_update_other d k v h]
  · rw [if_neg hany, dget_append, dget_single_other v h]
    cases dget d k' <;> rfl

/-- `dset` leaves every `dget` defined (`some`) that was defined before. -/
theorem dget_dset_isSome (d : List (String × JVal)) (k : String) (v : JVal)
    (k' : String) (h : (dget d k').isSome) : (dget (dset d k v) k').isSome := by
  by_cases hk : k' = k
  · subst hk
    rw [dget_dset_self]
    rfl
  · rwa [dget_dset_other d k v hk]

/-! ## Helper lemmas: `_standardize_data` -/

namespace JSONOutputTool

/-- `addKeyStep` never disturbs a key that is already bound. -/
theorem dget_addKeyStep_present {d : List (String × JVal)} {k : String} {v : JVal}
    (key : String) (h : dget d k = some v) : dget (addKeyStep d key) k = some v := by
  unfold addKeyStep
  by_cases hp : (dget d key).isSome
  · rwa [if_pos hp]
  · rw [if_neg hp]
    have hne : k ≠ key := by
      intro hh
      subst hh
      exact hp (h ▸ rfl)
    by_cases h1 : key = "recommendations"
    · rw [if_pos h1, dget_dset_other _ _ _ hne]; exact h
    · rw [if_neg h1]
      by_cases h2 : key = "tickers_analyzed"
      · rw [if_pos h2, dget_dset_other _ _ _ hne]; exact h
      · rw [if_neg h2, dget_dset_other _ _ _ hne]; exact h

/-- After `addKeyStep d key`, the key `key` is bound. -/
theorem addKeyStep_sets (d : List (String × JVal)) (key : String) :
    (dget (addKeyStep d key) key).isSome := by
  unfold addKeyStep
  by_cases hp : (dget d key).isSome
  · rwa [if_pos hp]
  · rw [if_neg hp]
    by_cases h1 : key = "recommendations"
    · rw [if_pos h1, dget_dset_self]; rfl
    · rw [if_neg h1]
      by_cases h2 : key = "tickers_analyzed"
      · rw [if_pos h2, dget_dset_self]; rfl
      · rw [if_neg h2, dget_dset_self]; rfl

theorem dget_addKeyStep_isSome {d : List (String × JVal)} {k : String}
    (key : String) (h : (dget d k).isSome) : (dget (addKeyStep d key) k).isSome := by
  obtain ⟨v, hv⟩ := Option.isSome_iff_exists.mp h
  rw [dget_addKeyStep_present key hv]
  rfl

/-- The fold over the four required keys, unfolded. -/
theorem addMissingKeys_eq (data : List (String × JVal)) :
    addMissingKeys data =
      addKeyStep (addKeyStep (addKeyStep (addKeyStep data "crew_type")
        "analysis_date") "recommendations") "tickers_analyzed" := rfl

/-- `_standardize_data`'s first loop preserves every existing binding. -/
theorem dget_addMissingKeys_present {data : List (String × JVal)} {k : String}
    {v : JVal} (h : dget data k = some v) : dget (addMissingKeys data) k = some v := by
  rw [addMissingKeys_eq]
  exact dget_addKeyStep_present _ (dget_addKeyStep_present _
    (dget_addKeyStep_present _ (dget_addKeyStep_present _ h)))

/-- After `_standardize_data`'s first loop, every required key is bound. -/
theorem addMissingKeys_required (data : List (String × JVal)) :
    ∀ k ∈ requiredKeys, (dget (addMissingKeys data) k).isSome := by
  intro k hk
  rw [addMissingKeys_eq]
  simp only [requiredKeys, List.mem_cons, List.mem_singleton, List.not_mem_nil,
    or_false] at hk
  rcases hk with rfl | rfl | rfl | rfl
  · exact dget_addKeyStep_isSome _ (dget_addKeyStep_isSome _
      (dget_addKeyStep_isSome _ (addKeyStep_sets _ _)))
  · exact dget_addKeyStep_isSome _ (dget_addKeyStep_isSome _ (addKeyStep_sets _ _))
  · exact dget_addKeyStep_isSome _ (addKeyStep_sets _ _)
  · exact addKeyStep_sets _ _

end JSONOutputTool

/-! ## Helper lemmas: `standard_rec` and the recommendation pass -/

theorem dget_cons_self {kv : String × JVal} {k : String} (d : List (String × JVal))
    (h : kv.1 = k) : dget (kv :: d) k = some kv.2 := by
  unfold dget
  rw [List.find?_cons_of_pos _ (by simpa using h)]
  rfl

theorem dget_cons_other {kv : String × JVal} {k : String} (d : List (String × JVal))
    (h : kv.1 ≠ k) : dget (kv :: d) k = dget d k := by
  unfold dget
  rw [List.find?_cons_of_neg _ (by simpa using h)]

theorem dget_eq_none_of_not_mem_keys {k : String} :
    ∀ {d : List (String × JVal)}, k ∉ d.map Prod.fst → dget d k = none
  | [], _ => rfl
  | kv :: d, h => by
    simp only [List.map_cons, List.mem_cons, not_or] at h
    rw [dget_cons_other d (fun hh => h.1 hh.symm)]
    exact dget_eq_none_of_not_mem_keys h.2

theorem dget_isSome_of_mem_keys {k : String} {d : List (String × JVal)}
    (h : k ∈ d.map Prod.fst) : (dget d k).isSome := by
  obtain ⟨kv, hkv, rfl⟩ := List.mem_map.mp h
  have hf : (List.find? (fun kv2 => kv2.1 = kv.1) d).isSome :=
    List.find?_isSome.mpr ⟨kv, hkv, by simp⟩
  obtain ⟨x, hx⟩ := Option.isSome_iff_exists.mp hf
  simp [dget, hx]

namespace JSONOutputTool

/-- The field-preserving loop never disturbs an existing binding. -/
theorem keepNewField_preserves {k : String} {v : JVal} :
    ∀ (rec acc : List (String × JVal)), dget acc k = some v →
      dget (rec.foldl keepNewField acc) k = some v
  | [], _, h => h
  | kv :: rest, acc, h => by
    rw [List.foldl_cons]
    refine keepNewField_preserves rest _ ?_
    unfold keepNewField
    by_cases hp : (dget acc kv.1).isSome
    · rwa [if_pos hp]
    · rw [if_neg hp]
      exact dget_append_some _ h

/-- The field-preserving loop adds the first binding of any key that the
accumulator does not bind yet. -/
theorem keepNewField_new {k : String} {v : JVal} :
    ∀ (rec acc : List (String × JVal)), dget acc k = none → dget rec k = some v →
      dget (rec.foldl keepNewField acc) k = some v
  | [], _, _, hr => by exact absurd hr (by simp [dget])
  | kv :: rest, acc, ha, hr => by
    rw [List.foldl_cons]
    by_cases hk : kv.1 = k
    · have hv : kv.2 = v := by
        rw [dget_cons_self rest hk] at hr
        exact Option.some.injEq _ _ ▸ hr.symm ▸ rfl
      have hstep : keepNewField acc kv = acc ++ [kv] := by
        unfold keepNewField
        rw [if_neg (by rw [hk, ha]; simp)]
      refine keepNewField_preserves rest _ ?_
      rw [hstep, dget_append_none _ ha]
      obtain ⟨k1, v1⟩ := kv
      simp only at hk hv
      subst hk hv
      exact dget_single_self _ _
    · have hr' : dget rest k = some v := by rwa [dget_cons_other rest hk] at hr
      have ha' : dget (keepNewField acc kv) k = none := by
        unfold keepNewField
        by_cases hp : (dget acc kv.1).isSome
        · rwa [if_pos hp]
        · rw [if_neg hp, dget_append_none _ ha]
          obtain ⟨k1, v1⟩ := kv
          exact dget_single_other _ (fun hh => hk hh.symm)
      exact keepNewField_new rest _ ha' hr'

/-- The keys of the freshly built `standard_rec` base are exactly the ten
standard field names. -/
theorem std_base_keys (rec : List (String × JVal)) :
    (standardFields.map (fun kd => (kd.1, (dget rec kd.1).getD kd.2))).map Prod.fst =
      standardFields.map Prod.fst := by
  rw [List.map_map]
  rfl

/-- `standard_rec` binds each of the ten standard fields. -/
theorem standardizeRec_std_fields (rec : List (String × JVal)) (k : String)
    (hk : k ∈ standardFields.map Prod.fst) :
    (dget (standardizeRec rec) k).isSome := by
  have h1 : (dget (standardFields.map fun kd => (kd.1, (dget rec kd.1).getD kd.2))
      k).isSome :=
    dget_isSome_of_mem_keys (by rw [std_base_keys]; exact hk)
  obtain ⟨v, hv⟩ := Option.isSome_iff_exists.mp h1
  unfold standardizeRec
  rw [keepNewField_preserves rec _ hv]
  rfl

/-- `standard_rec` preserves every non-standard field with its value. -/
theorem standardizeRec_extra_fields (rec : List (String × JVal)) (k : String)
    (v : JVal) (hmem : k ∉ standardFields.map Prod.fst) (h : dget rec k = some v) :
    dget (standardizeRec rec) k = some v := by
  unfold standardizeRec
  refine keepNewField_new rec _ ?_ h
  exact dget_eq_none_of_not_mem_keys (by rw [std_base_keys]; exact hmem)

/-- The recommendation fold, re-expressed as a `filterMap`. -/
theorem foldl_recListStep : ∀ (recs acc : List JVal),
    recs.foldl recListStep acc = acc ++ recs.filterMap (fun r =>
      match r with
      | JVal.obj rec => some (JVal.obj (standardizeRec rec))
      | _ => none)
  | [], acc => by simp
  | r :: recs, acc => by
    rw [List.foldl_cons, foldl_recListStep recs _]
    cases r <;> simp [recListStep]

theorem standardizeRecList_eq_filterMap (recs : List JVal) :
    standardizeRecList recs = recs.filterMap (fun r =>
      match r with
      | JVal.obj rec => some (JVal.obj (standardizeRec rec))
      | _ => none) := by
  unfold standardizeRecList
  simpa using foldl_recListStep recs []

/-- When the input binds `"recommendations"` to a list, the standardized
dict binds it to the standardized list. -/
theorem standardizeData_recommendations {data : List (String × JVal)}
    {recs : List JVal} (h : dget data "recommendations" = some (.arr recs)) :
    dget (standardizeData data) "recommendations" =
      some (.arr (standardizeRecList recs)) := by
  have h1 : dget (addMissingKeys data) "recommendations" = some (.arr recs) :=
    dget_addMissingKeys_present h
  simp only [standardizeData]
  rw [h1]
  exact dget_dset_self _ _ _

/-- The standardized dict binds all four required keys. -/
theorem standardizeData_required (data : List (String × JVal)) :
    ∀ k ∈ requiredKeys, (dget (standardizeData data) k).isSome := by
  intro k hk
  have h1 := addMissingKeys_required data k hk
  simp only [standardizeData]
  rcases hrec : dget (addMissingKeys data) "recommendations" with _ | v
  · exact h1
  · cases v with
    | arr recs => exact dget_dset_isSome _ _ _ _ h1
    | null => exact h1
    | bool b => exact h1
    | num q => exact h1
    | str s => exact h1
    | obj kvs => exact h1

end JSONOutputTool



/-! ## Delay-formula monotonicity -/

namespace RetryLLMWrapper

theorem syncDelay_mono (cfg : Config) (hmin : 0 ≤ cfg.min_seconds)
    {i j : Nat} (hij : i ≤ j) : syncDelay cfg i ≤ syncDelay cfg j := by
  unfold syncDelay
  refine max_le_max le_rfl (min_le_min ?_ le_rfl)
  exact mul_le_mul_of_nonneg_left (pow_le_pow_right₀ (by norm_num) hij) hmin

theorem syncDelay_le_max (cfg : Config) (hmax : 0 ≤ cfg.max_seconds) (i : Nat) :
    syncDelay cfg i ≤ cfg.max_seconds :=
  max_le hmax (min_le_right _ _)

theorem asyncDelay_mono (cfg : Config) (hmin : 0 ≤ cfg.min_seconds)
    (hfac : 1 ≤ cfg.factor) {i j : Nat} (hij : i ≤ j) :
    asyncDelay cfg i ≤ asyncDelay cfg j := by
  unfold asyncDelay
  refine min_le_min le_rfl ?_
  exact mul_le_mul_of_nonneg_left (pow_le_pow_right₀ hfac (by omega)) hmin

theorem asyncDelay_le_max (cfg : Config) (i : Nat) :
    asyncDelay cfg i ≤ cfg.max_seconds :=
  min_le_left _ _

end RetryLLMWrapper


/-! ## The claims -/

/-- C1: for every `max_retries = N` with `N ≥ 1` and an underlying LLM call
that fails on every invocation (raises, or returns an empty result), both
`_generate` and `_agenerate` invoke the underlying call exactly `N` times
and then raise the exception of the last failed attempt; in particular,
when the last invocation raised `e0`, exactly `e0` is re-raised — no silent
failure and no substituted exception. -/
theorem c1_permanent_failure_attempts {ε : Type} (cfg : Config) (N : Nat)
    (hN : 1 ≤ N) (hcfg : cfg.max_retries = N) (calls : Nat → CallOutcome ε)
    (hfail : ∀ j, failsCheck (calls j) = true) :
    (generateTrace cfg calls).calls = N ∧
    (agenerateTrace cfg calls).calls = N ∧
    (∃ e, syncBody (calls (N - 1)) = .error e ∧
      (generateTrace cfg calls).outcome = .raised e) ∧
    (∃ e, asyncBody (calls (N - 1)) = .error e ∧
      (agenerateTrace cfg calls).outcome = .raised e) ∧
    (∀ e0 : ε, calls (N - 1) = .raises e0 →
      (generateTrace cfg calls).outcome = .raised (.underlying e0) ∧
      (agenerateTrace cfg calls).outcome = .raised (.underlying e0)) := by
  obtain ⟨n, rfl⟩ : ∃ n, N = n + 1 := ⟨N - 1, by omega⟩
  obtain ⟨hc1, _, e1, he1, ho1⟩ := generateAux_fail cfg calls hfail n 0
  obtain ⟨hc2, _, e2, he2, ho2⟩ := agenerateAux_fail cfg calls hfail n 0
  have hgt : generateTrace cfg calls = generateAux cfg calls 0 n := by
    unfold generateTrace
    rw [hcfg]
    norm_num
  have hat : agenerateTrace cfg calls = agenerateAux cfg calls 0 (n + 1) := by
    unfold agenerateTrace
    rw [hcfg]
  simp only [Nat.zero_add] at he1 he2
  have hidx : n + 1 - 1 = n := by omega
  refine ⟨by rw [hgt]; exact hc1, by rw [hat]; exact hc2,
    ⟨e1, by rw [hidx]; exact he1, by rw [hgt]; exact ho1⟩,
    ⟨e2, by rw [hidx]; exact he2, by rw [hat]; exact ho2⟩, ?_⟩
  intro e0 h0
  rw [hidx] at h0
  rw [h0] at he1 he2
  have h1 : e1 = LLMExc.underlying e0 := by
    have : (Except.error (LLMExc.underlying e0) : Except (LLMExc ε) LLMResult) =
        .error e1 := he1
    simpa using this.symm
  have h2 : e2 = LLMExc.underlying e0 := by
    have : (Except.error (LLMExc.underlying e0) : Except (LLMExc ε) LLMResult) =
        .error e2 := he2
    simpa using this.symm
  subst h1 h2
  exact ⟨by rw [hgt]; exact ho1, by rw [hat]; exact ho2⟩

/-- Witness for C1 at `max_retries = 3` with a call raising its attempt
index on every invocation: three calls in each variant, and the terminal
exception is the third attempt's own. -/
theorem c1_witness :
    (generateTrace cfgW1 alwaysRaises).calls = 3 ∧
    (agenerateTrace cfgW1 alwaysRaises).calls = 3 ∧
    (generateTrace cfgW1 alwaysRaises).outcome = .raised (.underlying 2) ∧
    (agenerateTrace cfgW1 alwaysRaises).outcome = .raised (.underlying 2) := by
  have h := c1_permanent_failure_attempts cfgW1 3 (by norm_num) rfl alwaysRaises
    (fun j => rfl)
  obtain ⟨h1, h2, _, _, h5⟩ := h
  obtain ⟨h5a, h5b⟩ := h5 2 rfl
  exact ⟨h1, h2, h5a, h5b⟩

/-- Counterexample to C2 as stated: with the default backoff parameters
(`min_seconds=1, max_seconds=60, factor=2`) and `max_retries = 2`, a
permanently failing call sleeps 1 second in `_generate` (tenacity's
`wait_exponential` starts at `multiplier * 2^0`) but 2 seconds in
`_agenerate` (which computes `factor**attempt` after incrementing
`attempt` to 1), so the two variants do not sleep identically. -/
theorem c2_counterexample :
    (generateTrace cfgW2 alwaysRaises).delays = [1] ∧
    (agenerateTrace cfgW2 alwaysRaises).delays = [2] ∧
    (generateTrace cfgW2 alwaysRaises).delays ≠
      (agenerateTrace cfgW2 alwaysRaises).delays := by
  have h1 : (generateTrace cfgW2 alwaysRaises).delays = [1] := by
    norm_num [generateTrace, generateAux, cfgW2, syncBody, checkBody, alwaysRaises,
      syncDelay]
  have h2 : (agenerateTrace cfgW2 alwaysRaises).delays = [2] := by
    norm_num [agenerateTrace, agenerateAux, cfgW2, asyncBody, checkBody, alwaysRaises,
      asyncDelay]
  refine ⟨h1, h2, ?_⟩
  rw [h1, h2]
  norm_num

/-- C2 (amended): for every configuration with `max_retries ≥ 1` and every
sequence of underlying-call outcomes, `_generate` and `_agenerate` make
the same number of attempts, sleep the same number of times, and end
identically up to the message text of the wrapper's own `ValueError`s
(same success result; same underlying terminal exception); the *values* of
the backoff delays, however, differ between the variants (see the
counterexample and C3). -/
theorem c2_sync_async_agree_up_to_delays {ε : Type} (cfg : Config)
    (hN : 1 ≤ cfg.max_retries) (calls : Nat → CallOutcome ε) :
    (generateTrace cfg calls).calls = (agenerateTrace cfg calls).calls ∧
    (generateTrace cfg calls).delays.length =
      (agenerateTrace cfg calls).delays.length ∧
    eraseMsg (generateTrace cfg calls).outcome =
      eraseMsg (agenerateTrace cfg calls).outcome := by
  obtain ⟨n, hn⟩ : ∃ n, cfg.max_retries = n + 1 := ⟨cfg.max_retries - 1, by omega⟩
  have h := generate_agenerate_rel cfg calls n 0
  unfold generateTrace agenerateTrace
  rw [hn]
  simpa using h

/-- Witness for C2 (amended) at `max_retries = 2` with a permanently
failing call: both variants make two calls and sleep once. -/
theorem c2_witness :
    (generateTrace cfgW2 alwaysRaises).calls = (agenerateTrace cfgW2 alwaysRaises).calls ∧
    (generateTrace cfgW2 alwaysRaises).delays.length =
      (agenerateTrace cfgW2 alwaysRaises).delays.length :=
  ⟨(c2_sync_async_agree_up_to_delays cfgW2 (by norm_num [cfgW2]) alwaysRaises).1,
   (c2_sync_async_agree_up_to_delays cfgW2 (by norm_num [cfgW2]) alwaysRaises).2.1⟩

/-- Counterexample to C3 as stated: with the default configuration
(`min_seconds=1, max_seconds=60, factor=2`), the delay `_agenerate` sleeps
after its first failure (attempt counter 0) is 2, not
`min(max_seconds, min_seconds * factor^0) = 1` as the claim's formula
requires. -/
theorem c3_counterexample :
    (agenerateTrace defaultConfig alwaysRaises).delays.get? 0 = some 2 ∧
    min defaultConfig.max_seconds
      (defaultConfig.min_seconds * defaultConfig.factor ^ (0 : Nat)) = 1 ∧
    (2 : ℚ) ≠ 1 := by
  refine ⟨?_, ?_, by norm_num⟩
  · have h : (agenerateTrace defaultConfig alwaysRaises).delays = [2, 4, 8, 16] := by
      norm_num [agenerateTrace, agenerateAux, defaultConfig, asyncBody, checkBody,
        alwaysRaises, asyncDelay]
    rw [h]
    rfl
  · norm_num [defaultConfig]

/-- C3 (amended): the delay before re-attempt `i + 1` (0-based attempt
counter `i` starting with the delay after the first failure) is
`max(0, min(min_seconds * 2^i, max_seconds))` in `_generate` — tenacity's
`wait_exponential` with exponent base 2, ignoring the `factor` field — and
`min(max_seconds, min_seconds * factor^(i+1))` in `_agenerate`, whose
exponent starts at 1 because `attempt` is incremented before the sleep is
computed. -/
theorem c3_backoff_formulas {ε : Type} (cfg : Config) (calls : Nat → CallOutcome ε)
    (i : Nat) (q : ℚ) :
    ((generateTrace cfg calls).delays.get? i = some q →
      q = max 0 (min (cfg.min_seconds * 2 ^ i) cfg.max_seconds)) ∧
    ((agenerateTrace cfg calls).delays.get? i = some q →
      q = min cfg.max_seconds (cfg.min_seconds * cfg.factor ^ (i + 1))) := by
  constructor
  · intro h
    have := generateAux_delay cfg calls (cfg.max_retries - 1) 0 i q h
    simpa [syncDelay] using this
  · intro h
    have := agenerateAux_delay cfg calls cfg.max_retries 0 i q h
    simpa [asyncDelay] using this

/-- Witness for C3 (amended): in the default configuration the second
sleep of a permanently failing `_generate` run is 2 and matches the sync
formula at `i = 1`; the second sleep of `_agenerate` is 4 and matches the
async formula at `i = 1`. -/
theorem c3_witness :
    (2 : ℚ) = max 0 (min (defaultConfig.min_seconds * 2 ^ (1 : Nat))
      defaultConfig.max_seconds) ∧
    (4 : ℚ) = min defaultConfig.max_seconds
      (defaultConfig.min_seconds * defaultConfig.factor ^ (1 + 1 : Nat)) := by
  constructor
  · refine (c3_backoff_formulas defaultConfig alwaysRaises 1 2).1 ?_
    have h : (generateTrace defaultConfig alwaysRaises).delays = [1, 2, 4, 8] := by
      norm_num [generateTrace, generateAux, defaultConfig, syncBody, checkBody,
        alwaysRaises, syncDelay]
    rw [h]
    rfl
  · refine (c3_backoff_formulas defaultConfig alwaysRaises 1 4).2 ?_
    have h : (agenerateTrace defaultConfig alwaysRaises).delays = [2, 4, 8, 16] := by
      norm_num [agenerateTrace, agenerateAux, defaultConfig, asyncBody, checkBody,
        alwaysRaises, asyncDelay]
    rw [h]
    rfl

/-- C4: if the underlying call fails on its first `K` invocations and
succeeds with a non-empty result on invocation `K + 1`, with `K <
max_retries`, then both variants return that result after exactly `K + 1`
calls and `K` backoff sleeps (whose values are the respective per-variant
delay sequences). -/
theorem c4_eventual_success {ε : Type} (cfg : Config) (K : Nat)
    (hK : K < cfg.max_retries) (calls : Nat → CallOutcome ε) (r : LLMResult)
    (hfail : ∀ j, j < K → failsCheck (calls j) = true)
    (hsucc : syncBody (calls K) = .ok r) :
    generateTrace cfg calls =
      ⟨K + 1, (List.range K).map (syncDelay cfg), .ok r⟩ ∧
    agenerateTrace cfg calls =
      ⟨K + 1, (List.range K).map (asyncDelay cfg), .ok r⟩ := by
  constructor
  · have h := generateAux_succ cfg calls K 0 (cfg.max_retries - 1)
      (fun j hj => by simpa using hfail j hj)
      (by simpa using hsucc)
      (by omega)
    unfold generateTrace
    rw [h]
    simp
  · have h := agenerateAux_succ cfg calls K 0 cfg.max_retries
      (fun j hj => by simpa using hfail j hj)
      (by simpa using asyncBody_ok_of_syncBody_ok hsucc)
      hK
    unfold agenerateTrace
    rw [h]
    simp

/-- Witness for C4: `max_retries = 3`, two failures then a good result:
both variants make three calls, sleep twice, and return the result. -/
theorem c4_witness :
    generateTrace cfgW1 succCalls =
      ⟨3, (List.range 2).map (syncDelay cfgW1), .ok [[⟨"ok"⟩]]⟩ ∧
    agenerateTrace cfgW1 succCalls =
      ⟨3, (List.range 2).map (asyncDelay cfgW1), .ok [[⟨"ok"⟩]]⟩ :=
  c4_eventual_success cfgW1 2 (by norm_num [cfgW1]) succCalls [[⟨"ok"⟩]]
    (fun j hj => by simp [succCalls, hj, failsCheck])
    (by simp [succCalls, syncBody, checkBody, badGenList, pyStrip, List.dropWhile])

/-- C5: an underlying-call outcome that is structurally present but whose
text payload is empty per the wrapper's checks (`None` result, empty
`generations`, empty first generation list, empty generation list, or a
generation list whose first generation's text is empty or strips to the
empty string) takes exactly the retry path of a raised exception: in both
variants, substituting such an outcome for a raised exception at any
position leaves the number of calls, every backoff delay, and the
success/failure status of the run unchanged, so it counts as a failed
attempt, triggers a retry while attempts remain, and counts toward
`max_retries` exhaustion. -/
theorem c5_empty_payload_retries {ε : Type} (cfg : Config)
    (calls : Nat → CallOutcome ε) (i : Nat) (e : ε) (r : Option LLMResult)
    (hr : failsCheck (CallOutcome.returns r : CallOutcome ε) = true) :
    (generateTrace cfg (fun j => if j = i then .returns r else calls j)).calls =
      (generateTrace cfg (fun j => if j = i then .raises e else calls j)).calls ∧
    (generateTrace cfg (fun j => if j = i then .returns r else calls j)).delays =
      (generateTrace cfg (fun j => if j = i then .raises e else calls j)).delays ∧
    sameStatus
      (generateTrace cfg (fun j => if j = i then .returns r else calls j)).outcome
      (generateTrace cfg (fun j => if j = i then .raises e else calls j)).outcome ∧
    (agenerateTrace cfg (fun j => if j = i then .returns r else calls j)).calls =
      (agenerateTrace cfg (fun j => if j = i then .raises e else calls j)).calls ∧
    (agenerateTrace cfg (fun j => if j = i then .returns r else calls j)).delays =
      (agenerateTrace cfg (fun j => if j = i then .raises e else calls j)).delays ∧
    sameStatus
      (agenerateTrace cfg (fun j => if j = i then .returns r else calls j)).outcome
      (agenerateTrace cfg (fun j => if j = i then .raises e else calls j)).outcome := by
  have hcong : ∀ j,
      failsCheck ((fun j => if j = i then CallOutcome.returns r else calls j) j) =
        failsCheck ((fun j => if j = i then CallOutcome.raises e else calls j) j) ∧
      (failsCheck ((fun j => if j = i then CallOutcome.returns r else calls j) j) =
        false →
        (fun j => if j = i then CallOutcome.returns r else calls j) j =
          (fun j => if j = i then CallOutcome.raises e else calls j) j) := by
    intro j
    by_cases hj : j = i
    · subst hj
      constructor
      · simp only [eq_self_iff_true, if_true]
        rw [hr]
        rfl
      · intro hfalse
        simp only [eq_self_iff_true, if_true] at hfalse
        rw [hr] at hfalse
        simp at hfalse
    · simp [hj]
  obtain ⟨hs1, hs2, hs3⟩ := generateAux_congr cfg _ _ hcong (cfg.max_retries - 1) 0
  obtain ⟨ha1, ha2, ha3⟩ := agenerateAux_congr cfg _ _ hcong cfg.max_retries 0
  exact ⟨hs1, hs2, hs3, ha1, ha2, ha3⟩

/-- Witness for C5: a payload whose only generation strips to whitespace,
substituted for a raised exception in an otherwise-succeeding run at
position 0 under `max_retries = 2`: same calls, same delays in both
variants. -/
theorem c5_witness :
    (generateTrace cfgW2 (fun j => if j = 0 then
        .returns (some [[⟨" "⟩]]) else goodCalls j)).calls =
      (generateTrace cfgW2 (fun j => if j = 0 then
        .raises 7 else goodCalls j)).calls ∧
    (agenerateTrace cfgW2 (fun j => if j = 0 then
        .returns (some [[⟨" "⟩]]) else goodCalls j)).delays =
      (agenerateTrace cfgW2 (fun j => if j = 0 then
        .raises 7 else goodCalls j)).delays := by
  have h := c5_empty_payload_retries cfgW2 goodCalls 0 7 (some [[⟨" "⟩]])
    (by simp [failsCheck, badGenList, pyStrip, List.dropWhile])
  exact ⟨h.1, h.2.2.2.2.1⟩

/-- C6: for every retry sequence of either variant (with nonnegative
`min_seconds` and `max_seconds` and `factor ≥ 1`), the backoff delays are
non-decreasing in the attempt index and every delay is at most
`max_seconds`. -/
theorem c6_delays_monotone_capped {ε : Type} (cfg : Config)
    (hmin : 0 ≤ cfg.min_seconds) (hmax : 0 ≤ cfg.max_seconds)
    (hfac : 1 ≤ cfg.factor) (calls : Nat → CallOutcome ε) :
    (∀ i j qi qj, i ≤ j →
      (generateTrace cfg calls).delays.get? i = some qi →
      (generateTrace cfg calls).delays.get? j = some qj → qi ≤ qj) ∧
    (∀ i q, (generateTrace cfg calls).delays.get? i = some q →
      q ≤ cfg.max_seconds) ∧
    (∀ i j qi qj, i ≤ j →
      (agenerateTrace cfg calls).delays.get? i = some qi →
      (agenerateTrace cfg calls).delays.get? j = some qj → qi ≤ qj) ∧
    (∀ i q, (agenerateTrace cfg calls).delays.get? i = some q →
      q ≤ cfg.max_seconds) := by
  refine ⟨?_, ?_, ?_, ?_⟩
  · intro i j qi qj hij hi hj
    have h1 := generateAux_delay cfg calls (cfg.max_retries - 1) 0 i qi hi
    have h2 := generateAux_delay cfg calls (cfg.max_retries - 1) 0 j qj hj
    rw [h1, h2]
    simpa using syncDelay_mono cfg hmin hij
  · intro i q hq
    have h1 := generateAux_delay cfg calls (cfg.max_retries - 1) 0 i q hq
    rw [h1]
    simpa using syncDelay_le_max cfg hmax (0 + i)
  · intro i j qi qj hij hi hj
    have h1 := agenerateAux_delay cfg calls cfg.max_retries 0 i qi hi
    have h2 := agenerateAux_delay cfg calls cfg.max_retries 0 j qj hj
    rw [h1, h2]
    simpa using asyncDelay_mono cfg hmin hfac hij
  · intro i q hq
    have h1 := agenerateAux_delay cfg calls cfg.max_retries 0 i q hq
    rw [h1]
    simpa using asyncDelay_le_max cfg (0 + i)

/-- Witness for C6 in the default configuration with a permanently failing
call: the first two sync delays are 1 ≤ 2 and each is at most 60. -/
theorem c6_witness : (1 : ℚ) ≤ 2 ∧ (2 : ℚ) ≤ defaultConfig.max_seconds := by
  have hd : (generateTrace defaultConfig alwaysRaises).delays = [1, 2, 4, 8] := by
    norm_num [generateTrace, generateAux, defaultConfig, syncBody, checkBody,
      alwaysRaises, syncDelay]
  have h := c6_delays_monotone_capped defaultConfig
    (by norm_num [defaultConfig]) (by norm_num [defaultConfig])
    (by norm_num [defaultConfig]) alwaysRaises
  constructor
  · exact h.1 0 1 1 2 (by norm_num) (by rw [hd]; rfl) (by rw [hd]; rfl)
  · exact h.2.1 1 2 (by rw [hd]; rfl)

/-- C7: a failure of the underlying HTTP fetch or JSON parsing makes each
data tool's `_run` return a human-readable error value to the caller — an
error string from the Kraken tool (both its `except
requests.exceptions.RequestException` and `except json.JSONDecodeError`
handlers return strings), a dict with an `"error"` key from the Yahoo
Finance ticker tool (whose whole body is under `except Exception`) — and
never a propagated exception; the Yahoo tool never raises at all, and the
JSON output tool performs no fetch or parse and returns a string whenever
no file write is requested. -/
theorem c7_tool_errors_returned :
    (∀ pair msg, KrakenTickerInfoTool.run pair (.requestExc msg) =
      .ok ("Error fetching data from Kraken: " ++ msg)) ∧
    (∀ pair, KrakenTickerInfoTool.run pair .jsonDecodeExc =
      .ok "Error: Failed to parse JSON response from Kraken.") ∧
    (∀ ticker msg, YahooFinanceTickerInfoTool.run ticker (.error msg) =
      .ok [("error",
        JVal.str ("Failed to get ticker info for " ++ ticker ++ ": " ++ msg))]) ∧
    (∀ ticker info, ∃ d, YahooFinanceTickerInfoTool.run ticker (.ok info) = .ok d) ∧
    (∀ data w, ∃ s, JSONOutputTool.run data none w = .ok s) :=
  ⟨fun _ _ => rfl, fun _ => rfl, fun _ _ => rfl,
   fun _ info => ⟨YahooFinanceTickerInfoTool.dropNA
      (YahooFinanceTickerInfoTool.buildResult _ info), rfl⟩,
   fun data _ => ⟨pyStr (JVal.obj (JSONOutputTool.standardizeData data)), rfl⟩⟩

/-- C8: for each analysis stage (`check_stock`, `check_etf`,
`check_crypto`, sharing one body up to their stage identity): when the
stage's JSON result file exists and reading it succeeds, the stage stores
the file's contents in its own flow-state field and does not invoke its
crew (and writes nothing); otherwise (file missing or unreadable) the
stage invokes its crew and, when the crew succeeds, stores the crew's raw
result in its flow-state field and — when the write succeeds — writes
exactly that raw result to its own JSON file. -/
theorem c8_stage_cache_or_compute (stage : StageSpec)
    (_hstage : stage = stockStage ∨ stage = etfStage ∨ stage = cryptoStage)
    (env : StageEnv) :
    (∀ contents, env.fileExists = true → env.readOutcome = .ok contents →
      runStage stage env =
        ⟨false, some (stage.stateField, contents), none, none⟩) ∧
    ((env.fileExists = false ∨ ∃ m, env.readOutcome = .error m) →
      (runStage stage env).crewInvoked = true ∧
      (∀ raw, env.crewOutcome = .ok raw →
        (runStage stage env).stateAssign = some (stage.stateField, raw) ∧
        (env.writeOutcome = .ok () →
          (runStage stage env).fileWrite = some (stage.fileName, raw)))) := by
  constructor
  · intro contents hex hread
    unfold runStage
    rw [hex, if_pos rfl, hread]
  · intro hmiss
    have hbranch : runStage stage env = runCrewBranch stage env := by
      rcases hmiss with hex | ⟨m, hread⟩
      · unfold runStage
        rw [hex]
        rfl
      · unfold runStage
        rcases hfe : env.fileExists
        · rfl
        · rw [if_pos rfl, hread]
    rw [hbranch]
    constructor
    · unfold runCrewBranch
      rcases env.crewOutcome with m | raw
      · rfl
      · rcases env.writeOutcome with m | u <;> rfl
    · intro raw hcrew
      unfold runCrewBranch
      rw [hcrew]
      constructor
      · rcases env.writeOutcome with m | u <;> rfl
      · intro hwrite
        rw [hwrite]

/-- Witness for C8: the stock stage with an existing readable file returns
the cached contents without running the crew; with no file and a
successful crew and write, it computes, stores and writes the raw result. -/
theorem c8_witness :
    runStage stockStage ⟨true, .ok "cached", .ok "fresh", .ok ()⟩ =
      ⟨false, some (stockStage.stateField, "cached"), none, none⟩ ∧
    (runStage stockStage ⟨false, .ok "cached", .ok "fresh", .ok ()⟩).stateAssign =
      some (stockStage.stateField, "fresh") ∧
    (runStage stockStage ⟨false, .ok "cached", .ok "fresh", .ok ()⟩).fileWrite =
      some (stockStage.fileName, "fresh") := by
  have h1 := (c8_stage_cache_or_compute stockStage (Or.inl rfl)
    ⟨true, .ok "cached", .ok "fresh", .ok ()⟩).1 "cached" rfl rfl
  have h2 := (c8_stage_cache_or_compute stockStage (Or.inl rfl)
    ⟨false, .ok "cached", .ok "fresh", .ok ()⟩).2 (Or.inl rfl)
  obtain ⟨hassign, hwrite⟩ := h2.2 "fresh" rfl
  exact ⟨h1, hassign, hwrite rfl⟩

/-- Invariant step: one call keeps each wrap count at most 1, and at 0
while unpatched. -/
theorem patch_step_invariant (c : PatchCall) (st : PatchState)
    (h1 : st.getLlmWraps ≤ if st.patched then 1 else 0)
    (h2 : st.getModelWraps ≤ if st.patched then 1 else 0) :
    (patchCrewaiLlmInitialization c st).getLlmWraps ≤
      (if (patchCrewaiLlmInitialization c st).patched then 1 else 0) ∧
    (patchCrewaiLlmInitialization c st).getModelWraps ≤
      (if (patchCrewaiLlmInitialization c st).patched then 1 else 0) := by
  rcases hp : st.patched
  · rw [hp] at h1 h2
    simp only [Bool.false_eq_true, if_false] at h1 h2
    rcases hio : c.importOk
    · have hstep : patchCrewaiLlmInitialization c st = st := by
        unfold patchCrewaiLlmInitialization
        rw [hp, hio]
        simp
      rw [hstep, hp]
      simp only [Bool.false_eq_true, if_false]
      omega
    · have hstep : patchCrewaiLlmInitialization c st =
          { patched := true, getLlmWraps := st.getLlmWraps + 1,
            getModelWraps :=
              if c.hasGetModel then st.getModelWraps + 1 else st.getModelWraps } := by
        unfold patchCrewaiLlmInitialization
        rw [hp, hio]
        simp
      rw [hstep]
      simp only [if_true]
      refine ⟨by omega, ?_⟩
      split <;> omega
  · have hstep : patchCrewaiLlmInitialization c st = st := by
      unfold patchCrewaiLlmInitialization
      rw [hp]
      simp
    rw [hstep]
    exact ⟨h1, h2⟩

/-- C9: `patch_crewai_llm_initialization` is idempotent — once a completed
call has set the module-level `_PATCHED` flag, every later call (with any
arguments) returns without touching `CrewAIAgent._get_llm` or
`OpenAIAdapter.get_model` again, and starting from the unpatched
module-load state no sequence of calls ever stacks more than one retry
wrapper on either method. -/
theorem c9_patch_idempotent :
    (∀ st : PatchState, st.patched = true → ∀ c : PatchCall,
      patchCrewaiLlmInitialization c st = st) ∧
    (∀ (c c' : PatchCall) (st : PatchState),
      (patchCrewaiLlmInitialization c st).patched = true →
      patchCrewaiLlmInitialization c' (patchCrewaiLlmInitialization c st) =
        patchCrewaiLlmInitialization c st) ∧
    (∀ cs : List PatchCall,
      (cs.foldl (fun s c => patchCrewaiLlmInitialization c s)
        initialPatchState).getLlmWraps ≤ 1 ∧
      (cs.foldl (fun s c => patchCrewaiLlmInitialization c s)
        initialPatchState).getModelWraps ≤ 1) := by
  have hskip : ∀ (st : PatchState), st.patched = true → ∀ c : PatchCall,
      patchCrewaiLlmInitialization c st = st := by
    intro st hp c
    unfold patchCrewaiLlmInitialization
    rw [hp]
    rfl
  refine ⟨hskip, fun c c' st hp => hskip _ hp c', ?_⟩
  have hinv : ∀ (cs : List PatchCall) (st : PatchState),
      st.getLlmWraps ≤ (if st.patched then 1 else 0) →
      st.getModelWraps ≤ (if st.patched then 1 else 0) →
      (cs.foldl (fun s c => patchCrewaiLlmInitialization c s) st).getLlmWraps ≤ 1 ∧
      (cs.foldl (fun s c => patchCrewaiLlmInitialization c s) st).getModelWraps
        ≤ 1 := by
    intro cs
    induction cs with
    | nil =>
      intro st h1 h2
      refine ⟨h1.trans ?_, h2.trans ?_⟩ <;> (split <;> omega)
    | cons c cs ih =>
      intro st h1 h2
      rw [List.foldl_cons]
      obtain ⟨g1, g2⟩ := patch_step_invariant c st h1 h2
      exact ih _ g1 g2
  intro cs
  exact hinv cs initialPatchState (by simp [initialPatchState])
    (by simp [initialPatchState])

/-- Witness for C9: a successful first call patches; a second call with
different arguments leaves the state untouched. -/
theorem c9_witness :
    patchCrewaiLlmInitialization ⟨3, false, true, false⟩
        (patchCrewaiLlmInitialization ⟨5, true, true, true⟩ initialPatchState) =
      patchCrewaiLlmInitialization ⟨5, true, true, true⟩ initialPatchState ∧
    ([⟨5, true, true, true⟩, ⟨3, false, true, false⟩].foldl
        (fun s c => patchCrewaiLlmInitialization c s) initialPatchState).getLlmWraps ≤ 1 := by
  constructor
  · exact (c9_patch_idempotent.2.1) ⟨5, true, true, true⟩ ⟨3, false, true, false⟩
      initialPatchState rfl
  · exact (c9_patch_idempotent.2.2 [⟨5, true, true, true⟩, ⟨3, false, true, false⟩]).1

/-- C10: `_standardize_data` returns a dict binding all four required keys
(`crew_type`, `analysis_date`, `recommendations`, `tickers_analyzed`);
when the input binds `"recommendations"` to a list, the output binds it to
the list obtained by replacing every dict element with its standardized
form and dropping every non-dict element, where the standardized form of a
dict binds all ten standard fields and preserves every additional field
with its original value. -/
theorem c10_standardize_data (data : List (String × JVal)) :
    (∀ k ∈ JSONOutputTool.requiredKeys,
      (dget (JSONOutputTool.standardizeData data) k).isSome) ∧
    (∀ recs, dget data "recommendations" = some (.arr recs) →
      dget (JSONOutputTool.standardizeData data) "recommendations" =
        some (.arr (recs.filterMap (fun r =>
          match r with
          | JVal.obj rec => some (JVal.obj (JSONOutputTool.standardizeRec rec))
          | _ => none)))) ∧
    (∀ (rec : List (String × JVal)) (k : String),
      k ∈ JSONOutputTool.standardFields.map Prod.fst →
      (dget (JSONOutputTool.standardizeRec rec) k).isSome) ∧
    (∀ (rec : List (String × JVal)) (k : String) (v : JVal),
      k ∉ JSONOutputTool.standardFields.map Prod.fst →
      dget rec k = some v →
      dget (JSONOutputTool.standardizeRec rec) k = some v) := by
  refine ⟨JSONOutputTool.standardizeData_required data, ?_,
    JSONOutputTool.standardizeRec_std_fields,
    fun rec k v hmem h => JSONOutputTool.standardizeRec_extra_fields rec k v hmem h⟩
  intro recs h
  rw [JSONOutputTool.standardizeData_recommendations h,
    JSONOutputTool.standardizeRecList_eq_filterMap]

/-- Witness for C10 on a dict whose recommendation list holds one extra
field, one standard field, and one non-dict element. -/
theorem c10_witness :
    (dget (JSONOutputTool.standardizeData
      [("recommendations", JVal.arr
        [JVal.str "junk", JVal.obj [("ticker", JVal.str "AAPL"),
          ("note", JVal.str "extra")]])]) "crew_type").isSome ∧
    dget (JSONOutputTool.standardizeData
      [("recommendations", JVal.arr
        [JVal.str "junk", JVal.obj [("ticker", JVal.str "AAPL"),
          ("note", JVal.str "extra")]])]) "recommendations" =
      some (JVal.arr [JVal.obj (JSONOutputTool.standardizeRec
        [("ticker", JVal.str "AAPL"), ("note", JVal.str "extra")])]) ∧
    dget (JSONOutputTool.standardizeRec
      [("ticker", JVal.str "AAPL"), ("note", JVal.str "extra")]) "note" =
      some (JVal.str "extra") := by
  have h := c10_standardize_data
    [("recommendations", JVal.arr
      [JVal.str "junk", JVal.obj [("ticker", JVal.str "AAPL"),
        ("note", JVal.str "extra")]])]
  refine ⟨h.1 "crew_type" (by simp [JSONOutputTool.requiredKeys]), ?_, ?_⟩
  · have h2 := h.2.1 [JVal.str "junk", JVal.obj [("ticker", JVal.str "AAPL"),
      ("note", JVal.str "extra")]] (by simp [dget])
    rw [h2]
    rfl
  · exact h.2.2.2 [("ticker", JVal.str "AAPL"), ("note", JVal.str "extra")]
      "note" (JVal.str "extra")
      (by simp [JSONOutputTool.standardFields])
      (by simp [dget])
